import Mathlib

/-!
Verification development for the repository ingestion pipeline of
`src/main.py` (the `clone_repo` endpoint).  The Python code is shallowly
embedded: the extension classifier, the `os.walk` traversal with its
directory denylist and the `'.git' in root` substring guard, the per-file
size/decode filter, the batched commit loop over a SQLAlchemy session, and
the surrounding error/cleanup steps of the endpoint.  Machine-level details
(the actual git transport, the SQL engine) are modelled by boolean outcome
parameters in an environment record; everything the Python logic itself
decides is translated faithfully.
-/

namespace CoFrame

/-! ## Classifier (src/main.py lines 173-201)

`ext = Path(file_name).suffix.lower()` followed by `language_map.get(ext, 'plaintext')`.
-/

/-- Lowercasing of one character as Python `str.lower` acts on the ASCII
range: uppercase ASCII letters shift down by 32, everything else is kept
(the extension table only contains ASCII keys, so this is the behaviour the
lookup observes). -/
def asciiToLower (c : Char) : Char :=
  if 65 ≤ c.toNat ∧ c.toNat ≤ 90 then Char.ofNat (c.toNat + 32) else c

/-- Lowercase every character of a string (Python `s.lower()`). -/
def lower_name (s : String) : String :=
  String.mk (s.data.map asciiToLower)

/-- Scan a reversed character list up to the first dot: returns the
characters before the first dot (these are the extension characters of the
original name, reversed) and the characters after it, or `none` when the
list has no dot.  Helper for `file_suffix`. -/
def revBreakDot : List Char → Option (List Char × List Char)
  | [] => none
  | c :: cs =>
    if c = '.' then some ([], cs)
    else
      match revBreakDot cs with
      | none => none
      | some (a, b) => some (c :: a, b)

/-- Python `pathlib.PurePath.suffix` on a bare file name (no separators):
the substring from the last dot onward, provided that dot is neither the
first nor the last character; otherwise the empty string. -/
def file_suffix (name : String) : String :=
  match revBreakDot name.data.reverse with
  | none => ""
  | some (ext, pre) =>
    if ext.isEmpty || pre.isEmpty then ""
    else String.mk ('.' :: ext.reverse)

/-- The fixed extension table of src/main.py lines 175-200. -/
def language_map : List (String × String) :=
  [(".js", "javascript"), (".jsx", "javascript"), (".ts", "typescript"),
   (".tsx", "typescript"), (".py", "python"), (".html", "html"),
   (".css", "css"), (".scss", "scss"), (".json", "json"),
   (".md", "markdown"), (".txt", "plaintext"), (".sh", "shell"),
   (".bash", "shell"), (".yml", "yaml"), (".yaml", "yaml"),
   (".xml", "xml"), (".sql", "sql"), (".go", "go"), (".rs", "rust"),
   (".java", "java"), (".c", "c"), (".cpp", "cpp"), (".h", "c"),
   (".hpp", "cpp")]

/-- Language detection of src/main.py lines 174-201:
`language_map.get(Path(file_name).suffix.lower(), 'plaintext')`. -/
def classify (file_name : String) : String :=
  ((language_map.lookup (lower_name (file_suffix file_name))).getD "plaintext")

/-! ## Filesystem model and the traversal (src/main.py lines 144-155) -/

/-- A regular file of the cloned working tree together with the outcomes of
the system calls the import performs on it: `statOk` is whether
`os.path.getsize` succeeds, `size` its result, `readOk` whether
`open`/`read` succeeds at the IO level, `decodable` whether the bytes decode
as UTF-8, and `content` the decoded text. -/
structure SrcFile where
  name : String
  size : Nat
  statOk : Bool
  readOk : Bool
  decodable : Bool
  content : String
deriving DecidableEq, Repr

mutual
/-- A directory of the cloned working tree: named subdirectories and the
regular files it contains directly. -/
inductive FsTree where
  | node : FsForest → List SrcFile → FsTree
deriving DecidableEq, Repr
/-- The ordered list of named subdirectories of a directory. -/
inductive FsForest where
  | nil : FsForest
  | cons : String → FsTree → FsForest → FsForest
deriving DecidableEq, Repr
end

/-- The directory denylist of src/main.py line 151. -/
def skip_dirs : List String :=
  [".git", "node_modules", "__pycache__", ".next", "dist", "build", ".venv", "venv"]

/-- Whether `pat` starts the list `s`. -/
def charsStart : List Char → List Char → Bool
  | [], _ => true
  | _ :: _, [] => false
  | p :: ps, c :: cs => p = c && charsStart ps cs

/-- Whether `pat` occurs as a contiguous run inside `s`. -/
def charsHaveRun (pat : List Char) : List Char → Bool
  | [] => charsStart pat []
  | c :: cs => charsStart pat (c :: cs) || charsHaveRun pat cs

/-- Python `'.git' in s` on one path component. -/
def containsDotGit (s : String) : Bool :=
  charsHaveRun ".git".data s.data

/-- Python `'.git' in root` (line 147), where `root` is the directory path.
The pattern contains no separator, so it occurs in the joined path string
exactly when it occurs inside a single component; the clone prefix
`/tmp/coframe_<id>` (an integer id) never contains it. -/
def rootHasDotGit (p : List String) : Bool :=
  p.any containsDotGit

/-- The in-place pruning `dirs[:] = [d for d in dirs if d not in [...]]`
of line 151: drop subdirectories whose name is exactly in the denylist. -/
def pruneForest : FsForest → FsForest
  | .nil => .nil
  | .cons d t rest =>
    if skip_dirs.contains d then pruneForest rest
    else .cons d t (pruneForest rest)

mutual
/-- The `os.walk` loop of lines 145-155 restricted to what reaches the
per-file body: for each directory `root`, if `'.git' in root` the files are
skipped (and, because the `continue` fires before line 151, the
subdirectories are not pruned, hence `walkForestAll`); otherwise the
denylisted subdirectories are pruned (line 151, fused into
`walkForestPruned`) and every file of `root` is yielded.  `p` is the
directory path relative to the clone root. -/
def walkTree (p : List String) : FsTree → List (List String × SrcFile)
  | .node dirs files =>
    if rootHasDotGit p then walkForestAll p dirs
    else files.map (fun f => (p, f)) ++ walkForestPruned p dirs
/-- Descent into every subdirectory (the pruning line was skipped). -/
def walkForestAll (p : List String) : FsForest → List (List String × SrcFile)
  | .nil => []
  | .cons d t rest => walkTree (p ++ [d]) t ++ walkForestAll p rest
/-- Descent into the subdirectories surviving the denylist filter of
line 151. -/
def walkForestPruned (p : List String) : FsForest → List (List String × SrcFile)
  | .nil => []
  | .cons d t rest =>
    if skip_dirs.contains d then walkForestPruned p rest
    else walkTree (p ++ [d]) t ++ walkForestPruned p rest
end

/-- The fused pruning of `walkForestPruned` is exactly descending into the
forest that `dirs[:] = [d for d in dirs if d not in [...]]` leaves. -/
theorem walkForestPruned_eq_prune (p : List String) :
    (fo : FsForest) → walkForestPruned p fo = walkForestAll p (pruneForest fo)
  | .nil => rfl
  | .cons d t rest => by
    unfold walkForestPruned pruneForest
    by_cases hd : skip_dirs.contains d = true
    · rw [if_pos hd, if_pos hd, walkForestPruned_eq_prune p rest]
    · rw [if_neg hd, if_neg hd]
      unfold walkForestAll
      rw [walkForestPruned_eq_prune p rest]

mutual
/-- Every regular file of the tree with its directory path: the reference
enumeration the walk is compared against. -/
def allFilesTree (p : List String) : FsTree → List (List String × SrcFile)
  | .node dirs files => files.map (fun f => (p, f)) ++ allFilesForest p dirs
/-- Every regular file below a subdirectory list. -/
def allFilesForest (p : List String) : FsForest → List (List String × SrcFile)
  | .nil => []
  | .cons d t rest => allFilesTree (p ++ [d]) t ++ allFilesForest p rest
end

/-- The exact condition under which the traversal of `clone_repo` processes
a file whose directory path is `p`: no component of `p` contains the
substring `.git`, and no component is exactly a denylisted name. -/
def walkKeep (p : List String) : Bool :=
  !rootHasDotGit p && p.all (fun c => !skip_dirs.contains c)

/-! ## Per-file body of the loop (src/main.py lines 153-225) -/

/-- Outcome of the per-file filter chain. -/
inductive FileStep where
  | skipStat
  | skipLarge
  | skipRead
  | skipBinary
  | importRow
deriving DecidableEq, Repr

/-- Lines 157-171: the filter chain applied to one file, together with a
flag recording whether the code reached the `open`/`read` call (the
read-count instrumentation).  `os.path.getsize` failure and oversize both
skip before any read; an IO failure or a decode failure during the read
attempt skip after it. -/
def file_step (f : SrcFile) : FileStep × Bool :=
  if f.statOk = false then (.skipStat, false)
  else if 1000000 < f.size then (.skipLarge, false)
  else if f.readOk = false then (.skipRead, true)
  else if f.decodable = false then (.skipBinary, true)
  else (.importRow, true)

/-- A file survives every filter and is staged. -/
def importable (f : SrcFile) : Bool :=
  f.statOk && decide (f.size ≤ 1000000) && f.readOk && f.decodable

/-- One row of the `files` table as the import stages it (lines 204-209):
owning project, path relative to the clone root, decoded content, and the
classifier label.  The store-assigned `id` is omitted. -/
structure FileRow where
  project_id : Nat
  path : List String
  content : String
  language : String
deriving DecidableEq, Repr

/-- Line 204-209: the staged record for one file. -/
def mk_row (pid : Nat) (p : List String) (f : SrcFile) : FileRow :=
  { project_id := pid, path := p ++ [f.name], content := f.content,
    language := classify f.name }

/-- State of the import loop: the two counters, the rows already committed
to the store, the rows staged in the session but not yet committed, the
index of the next `db.commit()` call (0 is the delete-existing commit), and
the trace of how many staged rows each batch commit call tried to insert. -/
structure LoopState where
  files_imported : Nat
  files_skipped : Nat
  committed : List FileRow
  pending : List FileRow
  commitIdx : Nat
  trace : List Nat
deriving DecidableEq, Repr

/-- Lines 153-225: the loop body for one file.  On an importable file the
record is staged and the counter incremented; when the counter reaches a
multiple of 50 the code calls `db.commit()` inside the same `try`, so a
failing batch commit is caught by the generic per-file `except`, which
increments `files_skipped` and continues (no rollback is issued there).  A
successful commit makes the pending rows durable.  Non-importable files only
increment `files_skipped`. -/
def process_file (pid : Nat) (commitOk : Nat → Bool) (st : LoopState)
    (x : List String × SrcFile) : LoopState :=
  if (file_step x.2).1 = FileStep.importRow then
    if (st.files_imported + 1) % 50 = 0 then
      if commitOk st.commitIdx then
        { st with
          files_imported := st.files_imported + 1,
          pending := [],
          committed := st.committed ++ (st.pending ++ [mk_row pid x.1 x.2]),
          commitIdx := st.commitIdx + 1,
          trace := st.trace ++ [(st.pending ++ [mk_row pid x.1 x.2]).length] }
      else
        { st with
          files_imported := st.files_imported + 1,
          files_skipped := st.files_skipped + 1,
          pending := st.pending ++ [mk_row pid x.1 x.2],
          commitIdx := st.commitIdx + 1,
          trace := st.trace ++ [(st.pending ++ [mk_row pid x.1 x.2]).length] }
    else
      { st with
        files_imported := st.files_imported + 1,
        pending := st.pending ++ [mk_row pid x.1 x.2] }
  else
    { st with
      files_skipped := st.files_skipped + 1 }

/-- The whole per-file loop over the files the traversal yields. -/
def run_loop (pid : Nat) (commitOk : Nat → Bool) (st : LoopState)
    (l : List (List String × SrcFile)) : LoopState :=
  l.foldl (process_file pid commitOk) st

/-! ## The endpoint (src/main.py lines 99-253) -/

/-- The JSON body `clone_repo` returns, with one optional field per key the
Python dict can carry: the error responses carry only `error`, the success
response carries `message` and the two counters. -/
structure Response where
  message : Option String := none
  error : Option String := none
  files_imported : Option Nat := none
  files_skipped : Option Nat := none
deriving DecidableEq, Repr

/-- The environment of one run: everything outside the Python logic.
`projectExists` is the project lookup, `scratchPre` whether a stale clone
directory exists, `staleRemoveOk` whether its removal succeeds, `cloneOk`
whether `git.Repo.clone_from` succeeds, `cloneFailScratch` whether a failed
clone leaves a partial directory behind (the code does not remove one),
`commitOk i` whether the i-th `db.commit()` call of the run succeeds,
`cleanupOk` whether the final `shutil.rmtree` succeeds, `tree` the fetched
working tree, and `dbFiles` the File rows of the target project already in
the store. -/
structure Env where
  project_id : Nat
  projectExists : Bool
  scratchPre : Bool
  staleRemoveOk : Bool
  cloneOk : Bool
  cloneFailScratch : Bool
  commitOk : Nat → Bool
  cleanupOk : Bool
  tree : FsTree
  dbFiles : List FileRow

/-- Observable result of one run: the response body, the File rows of the
target project committed in the store afterwards, whether the scratch
directory still exists, whether the repo-url update commit went through,
and the batch-insert trace. -/
structure RunResult where
  response : Response
  db : List FileRow
  scratch : Bool
  repoUrlSet : Bool
  trace : List Nat
deriving DecidableEq, Repr

/-- The state the loop starts from after the delete-existing commit:
commit index 1 (index 0 was the delete), nothing staged, nothing committed
for this project. -/
def initLoop : LoopState :=
  { files_imported := 0, files_skipped := 0, committed := [], pending := [],
    commitIdx := 1, trace := [] }

/-- The loop result of a run that reaches the traversal. -/
def loop_result (env : Env) : LoopState :=
  run_loop env.project_id env.commitOk initLoop (walkTree [] env.tree)

/-- The `clone_repo` endpoint, src/main.py lines 99-253, step by step:
project lookup (107), stale-clone removal (115-120), clone (123-130),
delete-existing-rows commit (132-139, commit call 0), the walk loop
(141-225), the final flush (227-233: on failure it rolls the pending rows
back and returns an error dict that carries no counters), the repo-url
update commit (236-240, non-fatal), the cleanup `rmtree` (242-247, reached
only on this success path, non-fatal), and the success dict (249-253). -/
def clone_repo (env : Env) : RunResult :=
  if env.projectExists = false then
    { response := { error := some "Project not found" }, db := env.dbFiles,
      scratch := env.scratchPre, repoUrlSet := false, trace := [] }
  else if env.scratchPre && !env.staleRemoveOk then
    { response := { error := some "Failed to clean existing clone" }, db := env.dbFiles,
      scratch := true, repoUrlSet := false, trace := [] }
  else if env.cloneOk = false then
    { response := { error := some "Git clone failed" }, db := env.dbFiles,
      scratch := env.cloneFailScratch, repoUrlSet := false, trace := [] }
  else if env.commitOk 0 = false then
    { response := { error := some "Failed to clear existing files" }, db := env.dbFiles,
      scratch := true, repoUrlSet := false, trace := [] }
  else
    let fin := loop_result env
    let trace := fin.trace ++ [fin.pending.length]
    if env.commitOk fin.commitIdx = false then
      { response := { error := some "Failed to save files to database" },
        db := fin.committed, scratch := true, repoUrlSet := false, trace := trace }
    else
      { response :=
          { message := some "Successfully cloned",
            files_imported := some fin.files_imported,
            files_skipped := some fin.files_skipped },
        db := fin.committed ++ fin.pending,
        scratch := !env.cleanupOk,
        repoUrlSet := env.commitOk (fin.commitIdx + 1),
        trace := trace }

/-- An environment whose fetch and stale-cleanup steps succeed and whose
commit calls succeed exactly up to (not including) call `k`; the canonical
family the batching claims quantify over. -/
def mk_env (pid : Nat) (t : FsTree) (db : List FileRow) (k : Nat) (c : Bool) : Env :=
  { project_id := pid, projectExists := true, scratchPre := false,
    staleRemoveOk := true, cloneOk := true, cloneFailScratch := false,
    commitOk := fun i => decide (i < k), cleanupOk := c, tree := t, dbFiles := db }

/-! ## Derived quantities of a walked file list -/

/-- Number of importable files in a walked list. -/
def n_imp (l : List (List String × SrcFile)) : Nat :=
  (l.filter (fun x => importable x.2)).length

/-- Number of files the filter chain skips. -/
def n_skip (l : List (List String × SrcFile)) : Nat :=
  (l.filter (fun x => !importable x.2)).length

/-- The staged rows of the importable files, in walk order. -/
def imp_rows (pid : Nat) (l : List (List String × SrcFile)) : List FileRow :=
  (l.filter (fun x => importable x.2)).map (fun x => mk_row pid x.1 x.2)

/-- Sizes of the successive batch-insert attempts when the commit oracle
accepts exactly call indices below `k`: the j-th batch call (1-based) tries
to insert `50 * j - 50 * min (k-1) (j-1)` rows (50 while commits succeed,
growing once they start to fail because nothing leaves the session). -/
def batch_trace (k q : Nat) : List Nat :=
  (List.range q).map (fun j => 50 * (j + 1) - 50 * min (k - 1) j)

/-- The loop state after n imported files (their staged rows being r) and s
filter-skipped files, under the oracle accepting commit indices below k. -/
def cap_state (k : Nat) (r : List FileRow) (n s : Nat) : LoopState :=
  { files_imported := n
  , files_skipped := s + (n / 50 - min (k - 1) (n / 50))
  , committed := r.take (50 * min (k - 1) (n / 50))
  , pending := r.drop (50 * min (k - 1) (n / 50))
  , commitIdx := 1 + n / 50
  , trace := batch_trace k (n / 50) }

/-- The oversized file of the end-to-end scenario in the specification. -/
def bigFile : SrcFile :=
  { name := "b.png", size := 2000000, statOk := true, readOk := true,
    decodable := false, content := "" }

/-- The undecodable small file of the end-to-end scenario. -/
def binFile : SrcFile :=
  { name := "c.bin", size := 10, statOk := true, readOk := true,
    decodable := false, content := "" }

/-- A small importable source file. -/
def pyFile (nm : String) : SrcFile :=
  { name := nm, size := 100, statOk := true, readOk := true, decodable := true,
    content := "print(1)" }

/-- A tree whose only file sits inside a directory named `.github` — a name
that is not in the denylist but contains the substring `.git`. -/
def githubTree : FsTree :=
  .node (.cons ".github" (.node .nil [pyFile "ci.yml"]) .nil) []

/-- A flat tree with 50 small importable files. -/
def flat50 : FsTree :=
  .node .nil ((List.range 50).map (fun i => pyFile ("f" ++ toString i ++ ".py")))

/-- A flat tree with one importable file. -/
def flatOne : FsTree :=
  .node .nil [pyFile "a.py"]

/-- A tree with one denylisted and one ordinary subdirectory. -/
def mixTree : FsTree :=
  .node (.cons "node_modules" (.node .nil [pyFile "dep.js"])
    (.cons "src" (.node .nil [pyFile "app.py"]) .nil)) []

/-- A leftover row from an earlier import of another repository state. -/
def staleDb : List FileRow :=
  [mk_row 1 ["stale"] (pyFile "old.py")]

/-- A run over the 50-file tree in which exactly the intermediate batch
commit (call index 1) fails and every other commit succeeds. -/
def env_c10 : Env :=
  { project_id := 1, projectExists := true, scratchPre := false,
    staleRemoveOk := true, cloneOk := true, cloneFailScratch := false,
    commitOk := fun i => decide (i ≠ 1), cleanupOk := true, tree := flat50,
    dbFiles := [] }

/-! ## Classifier lemmas -/

theorem asciiToLower_dot : asciiToLower '.' = '.' := by decide

theorem ofNatAux_toNat (n : Nat) (h : n.isValidChar) :
    (Char.ofNatAux n h).toNat = n := rfl

theorem asciiToLower_ne_dot {c : Char} (h : c ≠ '.') : asciiToLower c ≠ '.' := by
  intro hEq
  unfold asciiToLower at hEq
  split at hEq
  · rename_i hr
    have hv : (c.toNat + 32).isValidChar := by
      left
      omega
    rw [Char.ofNat, dif_pos hv] at hEq
    have h46 := congrArg Char.toNat hEq
    rw [ofNatAux_toNat] at h46
    have hdot : ('.').toNat = 46 := by decide
    omega
  · exact h hEq

theorem asciiToLower_eq_dot_iff (c : Char) : (asciiToLower c = '.') ↔ c = '.' := by
  constructor
  · intro h
    by_contra hc
    exact asciiToLower_ne_dot hc h
  · intro h
    subst h
    exact asciiToLower_dot

theorem revBreakDot_map {f : Char → Char} (hf : ∀ c, (f c = '.') ↔ c = '.') :
    ∀ l : List Char,
      revBreakDot (l.map f) =
        (revBreakDot l).map (fun ab => (ab.1.map f, ab.2.map f))
  | [] => by simp [revBreakDot]
  | c :: cs => by
    by_cases hc : c = '.'
    · subst hc
      simp [revBreakDot, (hf '.').mpr rfl]
    · have hfc : ¬(f c = '.') := fun h => hc ((hf c).mp h)
      simp only [List.map_cons, revBreakDot, if_neg hc, if_neg hfc,
        revBreakDot_map hf cs]
      cases revBreakDot cs with
      | none => simp
      | some ab => simp

theorem file_suffix_lower (s : String) :
    file_suffix (lower_name s) = lower_name (file_suffix s) := by
  unfold file_suffix lower_name
  simp only
  have hrev : (s.data.map asciiToLower).reverse = s.data.reverse.map asciiToLower := by
    simp
  rw [hrev, revBreakDot_map asciiToLower_eq_dot_iff s.data.reverse]
  cases h : revBreakDot s.data.reverse with
  | none => rfl
  | some ab =>
    rcases ab with ⟨a, b⟩
    simp only [Option.map_some']
    cases a with
    | nil => simp
    | cons a0 arest =>
      cases b with
      | nil => simp
      | cons b0 brest =>
        simp only [List.map_cons, List.isEmpty_cons, Bool.or_self, Bool.false_or,
          if_false]
        simp [asciiToLower_dot]

theorem lower_suffix_congr {n₁ n₂ : String} (h : lower_name n₁ = lower_name n₂) :
    lower_name (file_suffix n₁) = lower_name (file_suffix n₂) := by
  rw [← file_suffix_lower, ← file_suffix_lower, h]

/-- Claim C9: classification is total and deterministic (it is a function
into `String` with a default), two file names that agree up to letter case
— or merely whose extensions agree up to letter case — receive the same
label, and a missing or unrecognized extension receives the generic
plaintext label. -/
theorem c9_classify_total_case_insensitive_default :
    (∀ n₁ n₂ : String, lower_name n₁ = lower_name n₂ → classify n₁ = classify n₂) ∧
    (∀ n₁ n₂ : String,
      lower_name (file_suffix n₁) = lower_name (file_suffix n₂) →
      classify n₁ = classify n₂) ∧
    (∀ nm : String, file_suffix nm = "" → classify nm = "plaintext") ∧
    (∀ nm : String, language_map.lookup (lower_name (file_suffix nm)) = none →
      classify nm = "plaintext") := by
  refine ⟨?_, ?_, ?_, ?_⟩
  · intro n₁ n₂ h
    unfold classify
    rw [lower_suffix_congr h]
  · intro n₁ n₂ h
    unfold classify
    rw [h]
  · intro nm h
    unfold classify
    rw [h]
    decide
  · intro nm h
    unfold classify
    rw [h]
    rfl

/-- Concrete instance of claim C9. -/
theorem c9_witness :
    classify "Server.PY" = classify "server.py" ∧
    classify "util.Rs" = classify "other.rS" ∧
    classify "LICENSE" = "plaintext" ∧
    classify "image.jpeg" = "plaintext" :=
  ⟨c9_classify_total_case_insensitive_default.1 "Server.PY" "server.py" (by decide),
   c9_classify_total_case_insensitive_default.2.1 "util.Rs" "other.rS" (by decide),
   c9_classify_total_case_insensitive_default.2.2.1 "LICENSE" (by decide),
   c9_classify_total_case_insensitive_default.2.2.2 "image.jpeg" (by decide)⟩

/-! ## Per-file lemmas -/

theorem file_step_importRow_iff (f : SrcFile) :
    ((file_step f).1 = FileStep.importRow) ↔ importable f = true := by
  unfold file_step importable
  rcases f with ⟨nm, sz, st, rd, dec, ct⟩
  simp only
  by_cases h : 1000000 < sz
  · have h2 : ¬(sz ≤ 1000000) := by omega
    simp only [if_pos h, decide_eq_false h2]
    cases st <;> cases rd <;> cases dec <;> simp
  · have h2 : sz ≤ 1000000 := by omega
    simp only [if_neg h, decide_eq_true h2]
    cases st <;> cases rd <;> cases dec <;> simp

/-- Claim C5: a file whose metadata size exceeds 1,000,000 bytes is
rejected by the size gate before the `open` call is reached (read flag
`false`), and its loop step only increments the skipped counter — no row
is staged, nothing else in the state changes. -/
theorem c5_large_file_skipped_never_read :
    ∀ (f : SrcFile), f.statOk = true → 1000000 < f.size →
      file_step f = (FileStep.skipLarge, false) ∧
      (∀ (pid : Nat) (g : Nat → Bool) (st : LoopState) (p : List String),
        process_file pid g st (p, f) =
          { st with files_skipped := st.files_skipped + 1 }) := by
  intro f hstat hsize
  have hfs : file_step f = (FileStep.skipLarge, false) := by
    unfold file_step
    rw [hstat]
    simp [hsize]
  refine ⟨hfs, ?_⟩
  intro pid g st p
  unfold process_file
  simp [hfs]

/-! ## Traversal lemmas -/

mutual
theorem allFilesTree_shape (p : List String) :
    (t : FsTree) → ∀ x ∈ allFilesTree p t, ∃ r, x.1 = p ++ r
  | .node dirs files => by
    intro x hx
    unfold allFilesTree at hx
    rcases List.mem_append.mp hx with hmem | hmem
    · rcases List.mem_map.mp hmem with ⟨f, hf, rfl⟩
      exact ⟨[], by simp⟩
    · exact allFilesForest_shape p dirs x hmem
theorem allFilesForest_shape (p : List String) :
    (fo : FsForest) → ∀ x ∈ allFilesForest p fo, ∃ r, x.1 = p ++ r
  | .nil => by
    intro x hx
    simp [allFilesForest] at hx
  | .cons d t rest => by
    intro x hx
    unfold allFilesForest at hx
    rcases List.mem_append.mp hx with hmem | hmem
    · rcases allFilesTree_shape (p ++ [d]) t x hmem with ⟨r, hr⟩
      exact ⟨d :: r, by simp [hr]⟩
    · exact allFilesForest_shape p rest x hmem
end

theorem rootHasDotGit_append {p : List String} (r : List String)
    (h : rootHasDotGit p = true) : rootHasDotGit (p ++ r) = true := by
  unfold rootHasDotGit at h ⊢
  rw [List.any_append, h]
  rfl

theorem all_deny_false_of_mem {p : List String} {c : String} (hc : c ∈ p)
    (hd : skip_dirs.contains c = true) :
    p.all (fun x => !skip_dirs.contains x) = false := by
  cases hall : p.all (fun x => !skip_dirs.contains x) with
  | false => rfl
  | true =>
    have := List.all_eq_true.mp hall c hc
    rw [hd] at this
    exact absurd this (by decide)

theorem walkKeep_false_dotgit {p : List String} (h : rootHasDotGit p = true)
    (r : List String) : walkKeep (p ++ r) = false := by
  unfold walkKeep
  rw [rootHasDotGit_append r h]
  rfl

theorem walkKeep_false_deny {p : List String} {c : String} (hc : c ∈ p)
    (hd : skip_dirs.contains c = true) (r : List String) :
    walkKeep (p ++ r) = false := by
  unfold walkKeep
  rw [all_deny_false_of_mem (List.mem_append_left r hc) hd]
  simp

mutual
theorem walkTree_dotgit (p : List String) (h : rootHasDotGit p = true) :
    (t : FsTree) → walkTree p t = []
  | .node dirs files => by
    unfold walkTree
    rw [if_pos h]
    exact walkForestAll_dotgit p h dirs
theorem walkForestAll_dotgit (p : List String) (h : rootHasDotGit p = true) :
    (fo : FsForest) → walkForestAll p fo = []
  | .nil => rfl
  | .cons d t rest => by
    unfold walkForestAll
    rw [walkTree_dotgit (p ++ [d]) (rootHasDotGit_append [d] h) t,
      walkForestAll_dotgit p h rest]
    rfl
end

mutual
/-- The traversal visits exactly the files whose directory path passes
`walkKeep`: no component contains the `.git` substring and no component is
a denylisted name. -/
theorem walkTree_filter (p : List String)
    (hp : p.all (fun c => !skip_dirs.contains c) = true) :
    (t : FsTree) → walkTree p t = (allFilesTree p t).filter (fun x => walkKeep x.1)
  | .node dirs files => by
    by_cases hg : rootHasDotGit p = true
    · rw [walkTree_dotgit p hg (.node dirs files)]
      symm
      rw [List.filter_eq_nil_iff]
      intro x hx
      rcases allFilesTree_shape p (.node dirs files) x hx with ⟨r, hr⟩
      rw [hr, walkKeep_false_dotgit hg r]
      simp
    · have hg' : rootHasDotGit p = false := by
        simpa using hg
      unfold walkTree allFilesTree
      rw [hg']
      simp only [Bool.false_eq_true, if_false]
      rw [List.filter_append]
      congr 1
      · symm
        rw [List.filter_eq_self]
        intro x hx
        rcases List.mem_map.mp hx with ⟨f, hf, rfl⟩
        unfold walkKeep
        rw [hg', hp]
        rfl
      · exact walkForest_filter p hp dirs
theorem walkForest_filter (p : List String)
    (hp : p.all (fun c => !skip_dirs.contains c) = true) :
    (fo : FsForest) → walkForestPruned p fo =
      (allFilesForest p fo).filter (fun x => walkKeep x.1)
  | .nil => rfl
  | .cons d t rest => by
    unfold walkForestPruned allFilesForest
    by_cases hd : skip_dirs.contains d = true
    · rw [if_pos hd, List.filter_append, walkForest_filter p hp rest]
      have htree : (allFilesTree (p ++ [d]) t).filter (fun x => walkKeep x.1) = [] := by
        rw [List.filter_eq_nil_iff]
        intro x hx
        rcases allFilesTree_shape (p ++ [d]) t x hx with ⟨r, hr⟩
        have hmem : d ∈ p ++ [d] := by simp
        rw [hr, walkKeep_false_deny hmem hd r]
        simp
      rw [htree]
      simp
    · rw [if_neg hd]
      rw [List.filter_append]
      congr 1
      · by_cases hg2 : rootHasDotGit (p ++ [d]) = true
        · rw [walkTree_dotgit _ hg2 t]
          symm
          rw [List.filter_eq_nil_iff]
          intro x hx
          rcases allFilesTree_shape (p ++ [d]) t x hx with ⟨r, hr⟩
          rw [hr, walkKeep_false_dotgit hg2 r]
          simp
        · apply walkTree_filter (p ++ [d]) ?_ t
          rw [List.all_append, hp]
          simp only [List.all_cons, List.all_nil, Bool.and_true, Bool.true_and]
          cases hcd : skip_dirs.contains d
          · rfl
          · exact absurd hcd hd
      · exact walkForest_filter p hp rest
end

/-! ## Loop invariants -/

theorem imp_rows_cons (pid : Nat) (x : List String × SrcFile)
    (xs : List (List String × SrcFile)) :
    imp_rows pid (x :: xs) =
      (if importable x.2 = true then [mk_row pid x.1 x.2] else []) ++ imp_rows pid xs := by
  unfold imp_rows
  rw [List.filter_cons]
  split
  · simp
  · simp

theorem n_imp_cons (x : List String × SrcFile) (xs : List (List String × SrcFile)) :
    n_imp (x :: xs) = (if importable x.2 = true then 1 else 0) + n_imp xs := by
  unfold n_imp
  rw [List.filter_cons]
  split
  · simp [Nat.add_comm]
  · simp

theorem n_skip_cons (x : List String × SrcFile) (xs : List (List String × SrcFile)) :
    n_skip (x :: xs) = (if importable x.2 = true then 0 else 1) + n_skip xs := by
  unfold n_skip
  rw [List.filter_cons]
  by_cases himp : importable x.2 = true
  · rw [if_pos himp]
    simp [himp]
  · rw [if_neg himp]
    have : (!importable x.2) = true := by
      cases h : importable x.2
      · rfl
      · exact absurd h himp
    simp [this, Nat.add_comm]

theorem length_imp_rows (pid : Nat) (l : List (List String × SrcFile)) :
    (imp_rows pid l).length = n_imp l := by
  unfold imp_rows n_imp
  rw [List.length_map]

theorem batch_trace_succ (k q : Nat) :
    batch_trace k (q + 1) = batch_trace k q ++ [50 * (q + 1) - 50 * min (k - 1) q] := by
  unfold batch_trace
  rw [List.range_succ, List.map_append]
  rfl

theorem process_file_cap (pid k : Nat) (hk : 1 ≤ k) (r : List FileRow) (n s : Nat)
    (hr : r.length = n) (x : List String × SrcFile) :
    process_file pid (fun i => decide (i < k)) (cap_state k r n s) x =
      (if importable x.2 = true then cap_state k (r ++ [mk_row pid x.1 x.2]) (n + 1) s
       else cap_state k r n (s + 1)) := by
  have hdiv : 50 * min (k - 1) (n / 50) ≤ n := by
    have h1 : 50 * (n / 50) ≤ n := by omega
    have h2 : min (k - 1) (n / 50) ≤ n / 50 := Nat.min_le_right _ _
    omega
  by_cases himp : importable x.2 = true
  · have hfs : (file_step x.2).1 = FileStep.importRow :=
      (file_step_importRow_iff x.2).mpr himp
    rw [if_pos himp]
    unfold process_file
    rw [if_pos hfs]
    simp only [cap_state]
    by_cases hb : (n + 1) % 50 = 0
    · rw [if_pos hb]
      have hq : (n + 1) / 50 = n / 50 + 1 := by omega
      by_cases hcommit : 1 + n / 50 < k
      · rw [if_pos (by simpa using hcommit)]
        have hmin1 : min (k - 1) (n / 50) = n / 50 := by omega
        have hmin2 : min (k - 1) ((n + 1) / 50) = (n + 1) / 50 := by omega
        have hlen : (r ++ [mk_row pid x.1 x.2]).length = 50 * ((n + 1) / 50) := by
          simp [hr]
          omega
        refine LoopState.mk.injEq _ _ _ _ _ _ _ _ _ _ _ _ |>.mpr ⟨rfl, by omega, ?_, ?_, by omega, ?_⟩
        · rw [hmin1, ← List.append_assoc, List.take_append_drop, hmin2, ← hlen,
            List.take_length]
        · rw [hmin2, ← hlen, List.drop_length]
        · rw [hq, batch_trace_succ]
          congr 1
          simp [List.length_drop, hr]
          omega
      · rw [if_neg (by simpa using hcommit)]
        have hmin1 : min (k - 1) (n / 50) = k - 1 := by omega
        have hmin2 : min (k - 1) ((n + 1) / 50) = k - 1 := by omega
        have hle : 50 * (k - 1) ≤ r.length := by omega
        refine LoopState.mk.injEq _ _ _ _ _ _ _ _ _ _ _ _ |>.mpr ⟨rfl, by omega, ?_, ?_, by omega, ?_⟩
        · rw [hmin1, hmin2, List.take_append_of_le_length hle]
        · rw [hmin1, hmin2, List.drop_append_of_le_length hle]
        · rw [hq, batch_trace_succ, hmin1]
          congr 1
          simp [List.length_drop, hr]
          omega
    · rw [if_neg hb]
      have hq : (n + 1) / 50 = n / 50 := by omega
      have hle : 50 * min (k - 1) (n / 50) ≤ r.length := by omega
      refine LoopState.mk.injEq _ _ _ _ _ _ _ _ _ _ _ _ |>.mpr ⟨rfl, by rw [hq], ?_, ?_, by rw [hq], by rw [hq]⟩
      · rw [hq, List.take_append_of_le_length hle]
      · rw [hq, List.drop_append_of_le_length hle]
  · have hfs : ¬((file_step x.2).1 = FileStep.importRow) := by
      rw [file_step_importRow_iff]
      exact himp
    rw [if_neg himp]
    unfold process_file
    rw [if_neg hfs]
    simp only [cap_state]
    refine LoopState.mk.injEq _ _ _ _ _ _ _ _ _ _ _ _ |>.mpr ⟨rfl, by omega, rfl, rfl, rfl, rfl⟩

theorem run_loop_cap (pid k : Nat) (hk : 1 ≤ k) :
    ∀ (l : List (List String × SrcFile)) (r : List FileRow) (n s : Nat),
      r.length = n →
      run_loop pid (fun i => decide (i < k)) (cap_state k r n s) l =
        cap_state k (r ++ imp_rows pid l) (n + n_imp l) (s + n_skip l) := by
  intro l
  induction l with
  | nil =>
    intro r n s hr
    simp [run_loop, imp_rows, n_imp, n_skip]
  | cons x xs ih =>
    intro r n s hr
    unfold run_loop
    rw [List.foldl_cons, process_file_cap pid k hk r n s hr x]
    rw [imp_rows_cons, n_imp_cons, n_skip_cons]
    by_cases himp : importable x.2 = true
    · rw [if_pos himp, if_pos himp, if_pos himp, if_pos himp]
      have := ih (r ++ [mk_row pid x.1 x.2]) (n + 1) s (by simp [hr])
      unfold run_loop at this
      rw [this, List.append_assoc]
      congr 1
      · omega
      · omega
    · rw [if_neg himp, if_neg himp, if_neg himp, if_neg himp]
      have := ih r n (s + 1) hr
      unfold run_loop at this
      rw [this]
      congr 1
      · omega
      · omega

theorem process_file_concat (pid : Nat) (g : Nat → Bool) (st : LoopState)
    (x : List String × SrcFile) :
    (process_file pid g st x).committed ++ (process_file pid g st x).pending =
      st.committed ++ st.pending ++
        (if importable x.2 = true then [mk_row pid x.1 x.2] else []) := by
  unfold process_file
  by_cases himp : importable x.2 = true
  · have hfs : (file_step x.2).1 = FileStep.importRow :=
      (file_step_importRow_iff x.2).mpr himp
    rw [if_pos hfs, if_pos himp]
    by_cases hb : (st.files_imported + 1) % 50 = 0
    · rw [if_pos hb]
      by_cases hc : g st.commitIdx = true
      · rw [if_pos hc]
        simp
      · rw [if_neg hc]
        simp
    · rw [if_neg hb]
      simp
  · have hfs : ¬((file_step x.2).1 = FileStep.importRow) := by
      rw [file_step_importRow_iff]
      exact himp
    rw [if_neg hfs, if_neg himp]
    simp

theorem run_loop_concat (pid : Nat) (g : Nat → Bool) :
    ∀ (l : List (List String × SrcFile)) (st : LoopState),
      (run_loop pid g st l).committed ++ (run_loop pid g st l).pending =
        st.committed ++ st.pending ++ imp_rows pid l := by
  intro l
  induction l with
  | nil =>
    intro st
    simp [run_loop, imp_rows]
  | cons x xs ih =>
    intro st
    unfold run_loop
    rw [List.foldl_cons]
    have h1 := ih (process_file pid g st x)
    unfold run_loop at h1
    rw [h1, process_file_concat, imp_rows_cons]
    simp [List.append_assoc]

theorem process_file_committed_extends (pid : Nat) (g : Nat → Bool) (st : LoopState)
    (x : List String × SrcFile) :
    ∃ u, (process_file pid g st x).committed = st.committed ++ u := by
  unfold process_file
  repeat' split
  all_goals first
    | exact ⟨[], (List.append_nil _).symm⟩
    | exact ⟨st.pending ++ [mk_row pid x.1 x.2], rfl⟩

theorem run_loop_committed_extends (pid : Nat) (g : Nat → Bool) :
    ∀ (l : List (List String × SrcFile)) (st : LoopState),
      ∃ u, (run_loop pid g st l).committed = st.committed ++ u := by
  intro l
  induction l with
  | nil =>
    intro st
    exact ⟨[], by simp [run_loop]⟩
  | cons x xs ih =>
    intro st
    unfold run_loop
    rw [List.foldl_cons]
    rcases ih (process_file pid g st x) with ⟨u, hu⟩
    rcases process_file_committed_extends pid g st x with ⟨v, hv⟩
    refine ⟨v ++ u, ?_⟩
    unfold run_loop at hu
    rw [hu, hv, List.append_assoc]

/-! ## Pipeline characterization -/

theorem initLoop_cap (k : Nat) : initLoop = cap_state k [] 0 0 := by
  simp [initLoop, cap_state, batch_trace]

theorem loop_result_mk_env (pid : Nat) (t : FsTree) (db : List FileRow) (k : Nat)
    (c : Bool) (hk : 1 ≤ k) :
    loop_result (mk_env pid t db k c) =
      cap_state k (imp_rows pid (walkTree [] t)) (n_imp (walkTree [] t))
        (n_skip (walkTree [] t)) := by
  unfold loop_result mk_env
  simp only
  rw [initLoop_cap k, run_loop_cap pid k hk _ [] 0 0 rfl]
  simp

theorem batch_trace_replicate (k : Nat) :
    ∀ q : Nat, q ≤ k - 1 → batch_trace k q = List.replicate q 50 := by
  intro q
  induction q with
  | zero => intro hq; rfl
  | succ q ih =>
    intro hq
    rw [batch_trace_succ, ih (by omega), List.replicate_succ']
    have hmin : 50 * (q + 1) - 50 * min (k - 1) q = 50 := by omega
    rw [hmin]

/-- A fully successful run (every commit call the run makes succeeds, that
is the oracle bound k lies beyond the final flush index). -/
theorem clone_repo_success (pid : Nat) (t : FsTree) (db : List FileRow) (k : Nat)
    (c : Bool) (hk : 1 + n_imp (walkTree [] t) / 50 < k) :
    clone_repo (mk_env pid t db k c) =
      { response :=
          { message := some "Successfully cloned",
            files_imported := some (n_imp (walkTree [] t)),
            files_skipped := some (n_skip (walkTree [] t)) },
        db := imp_rows pid (walkTree [] t),
        scratch := !c,
        repoUrlSet := decide (1 + n_imp (walkTree [] t) / 50 + 1 < k),
        trace := List.replicate (n_imp (walkTree [] t) / 50) 50 ++
          [n_imp (walkTree [] t) % 50] } := by
  have hk1 : 1 ≤ k := by omega
  have hloop := loop_result_mk_env pid t db k c hk1
  have hRlen := length_imp_rows pid (walkTree [] t)
  have hmin : min (k - 1) (n_imp (walkTree [] t) / 50) = n_imp (walkTree [] t) / 50 := by
    omega
  have hc4 : ¬(decide (0 < k) = false) := by
    rw [decide_eq_true (show 0 < k by omega)]
    decide
  have hc5 : ¬(decide (1 + n_imp (walkTree [] t) / 50 < k) = false) := by
    rw [decide_eq_true hk]
    decide
  unfold clone_repo
  rw [hloop]
  simp only [mk_env, cap_state]
  rw [if_neg (by decide : ¬(true = false)),
    if_neg (by decide : ¬((false && !true) = true)),
    if_neg (by decide : ¬(true = false)), if_neg hc4, if_neg hc5]
  simp only [hmin]
  have he : ((imp_rows pid (walkTree [] t)).drop
      (50 * (n_imp (walkTree [] t) / 50))).length = n_imp (walkTree [] t) % 50 := by
    rw [List.length_drop, hRlen]
    omega
  rw [he, batch_trace_replicate k _ (by omega)]
  refine RunResult.mk.injEq _ _ _ _ _ _ _ _ _ _ |>.mpr
    ⟨?_, List.take_append_drop _ _, rfl, rfl, rfl⟩
  simp only [Response.mk.injEq, Option.some.injEq, eq_self_iff_true, true_and,
    and_true]
  omega

/-- A run whose final flush (or an earlier batch commit) fails: the oracle
bound k is at most the final flush index.  The response is the bare error
dict without counters, and the store keeps exactly the rows of the batches
committed before call k. -/
theorem clone_repo_flushfail (pid : Nat) (t : FsTree) (db : List FileRow) (k : Nat)
    (c : Bool) (hk : 1 ≤ k) (hf : k ≤ 1 + n_imp (walkTree [] t) / 50) :
    clone_repo (mk_env pid t db k c) =
      { response := { error := some "Failed to save files to database" },
        db := (imp_rows pid (walkTree [] t)).take (50 * (k - 1)),
        scratch := true,
        repoUrlSet := false,
        trace := batch_trace k (n_imp (walkTree [] t) / 50) ++
          [n_imp (walkTree [] t) - 50 * (k - 1)] } := by
  have hloop := loop_result_mk_env pid t db k c hk
  have hRlen := length_imp_rows pid (walkTree [] t)
  have hmin : min (k - 1) (n_imp (walkTree [] t) / 50) = k - 1 := by omega
  have hc4 : ¬(decide (0 < k) = false) := by
    rw [decide_eq_true (show 0 < k by omega)]
    decide
  have hflush : decide (1 + n_imp (walkTree [] t) / 50 < k) = false :=
    decide_eq_false (by omega)
  unfold clone_repo
  rw [hloop]
  simp only [mk_env, cap_state]
  rw [if_neg (by decide : ¬(true = false)),
    if_neg (by decide : ¬((false && !true) = true)),
    if_neg (by decide : ¬(true = false)), if_neg hc4, if_pos hflush]
  simp only [hmin]
  have he : ((imp_rows pid (walkTree [] t)).drop (50 * (k - 1))).length =
      n_imp (walkTree [] t) - 50 * (k - 1) := by
    rw [List.length_drop, hRlen]
  rw [he]

/-- Concrete instance of claim C5. -/
theorem c5_witness :
    file_step bigFile = (FileStep.skipLarge, false) ∧
    process_file 7 (fun _ => true) initLoop ([], bigFile) =
      { initLoop with files_skipped := initLoop.files_skipped + 1 } :=
  ⟨(c5_large_file_skipped_never_read bigFile rfl (by decide)).1,
   (c5_large_file_skipped_never_read bigFile rfl (by decide)).2 7 (fun _ => true) initLoop []⟩

/-! ## Claims -/

theorem mem_imp_rows {pid : Nat} {l : List (List String × SrcFile)} {row : FileRow}
    (h : row ∈ imp_rows pid l) :
    ∃ x, x ∈ l ∧ importable x.2 = true ∧ row = mk_row pid x.1 x.2 := by
  unfold imp_rows at h
  rcases List.mem_map.mp h with ⟨x, hx, rfl⟩
  rcases List.mem_filter.mp hx with ⟨hmem, himp⟩
  exact ⟨x, hmem, himp, rfl⟩

theorem importable_decodable {f : SrcFile} (h : importable f = true) :
    f.decodable = true := by
  unfold importable at h
  simp only [Bool.and_eq_true] at h
  exact h.2

theorem n_imp_add_n_skip (l : List (List String × SrcFile)) :
    n_imp l + n_skip l = l.length := by
  unfold n_imp n_skip
  induction l with
  | nil => rfl
  | cons x xs ih =>
    rw [List.filter_cons, List.filter_cons]
    by_cases himp : importable x.2 = true
    · have hn : (!importable x.2) = false := by
        rw [himp]
        rfl
      rw [if_pos himp, hn, if_neg (by decide : ¬(false = true))]
      simp only [List.length_cons]
      omega
    · have hb : importable x.2 = false := by
        cases hcc : importable x.2
        · rfl
        · exact absurd hcc himp
      rw [hb, if_neg (by decide : ¬(false = true)),
        if_pos (by decide : ((!false) = true))]
      simp only [List.length_cons]
      omega

/-- Every row the endpoint leaves in the store, on any run that reaches the
insert phase, is a staged row of the walked files. -/
theorem clone_repo_db_sub (env : Env) (h1 : env.projectExists = true)
    (h2 : env.scratchPre = false) (h3 : env.cloneOk = true)
    (h4 : env.commitOk 0 = true) :
    ∀ row ∈ (clone_repo env).db,
      row ∈ imp_rows env.project_id (walkTree [] env.tree) := by
  intro row hrow
  unfold clone_repo at hrow
  rw [if_neg (by simp [h1]), if_neg (by simp [h2]), if_neg (by simp [h3]),
    if_neg (by simp [h4])] at hrow
  have hcat := run_loop_concat env.project_id env.commitOk (walkTree [] env.tree) initLoop
  rw [show initLoop.committed = [] from rfl, show initLoop.pending = [] from rfl] at hcat
  simp only [List.nil_append] at hcat
  unfold loop_result at hrow
  by_cases hf : env.commitOk
      (run_loop env.project_id env.commitOk initLoop (walkTree [] env.tree)).commitIdx = false
  · rw [if_pos hf] at hrow
    rw [← hcat]
    exact List.mem_append_left _ hrow
  · rw [if_neg hf] at hrow
    rw [← hcat]
    exact hrow

/-- Claim C4: a file that fails text decoding is counted as skipped by the
loop step, which stages no row and changes nothing else; consequently every
row the import leaves in the store comes from a file whose content decoded
successfully (no binary payload is ever stored). -/
theorem c4_undecodable_skipped_all_rows_text :
    (∀ (f : SrcFile), f.statOk = true → f.size ≤ 1000000 → f.readOk = true →
      f.decodable = false →
      file_step f = (FileStep.skipBinary, true) ∧
      (∀ (pid : Nat) (g : Nat → Bool) (st : LoopState) (p : List String),
        process_file pid g st (p, f) =
          { st with files_skipped := st.files_skipped + 1 })) ∧
    (∀ (env : Env), env.projectExists = true → env.scratchPre = false →
      env.cloneOk = true → env.commitOk 0 = true →
      ∀ row ∈ (clone_repo env).db, ∃ x, x ∈ allFilesTree [] env.tree ∧
        x.2.decodable = true ∧ row = mk_row env.project_id x.1 x.2) := by
  constructor
  · intro f hstat hsize hread hdec
    have hns : ¬(1000000 < f.size) := by omega
    have hfs : file_step f = (FileStep.skipBinary, true) := by
      unfold file_step
      rw [hstat, hread, hdec]
      simp [hns]
    refine ⟨hfs, ?_⟩
    intro pid g st p
    unfold process_file
    simp [hfs]
  · intro env h1 h2 h3 h4 row hrow
    have hsub := clone_repo_db_sub env h1 h2 h3 h4 row hrow
    rcases mem_imp_rows hsub with ⟨x, hxwalk, himp, hrw⟩
    have hxall : x ∈ allFilesTree [] env.tree := by
      rw [walkTree_filter [] rfl env.tree] at hxwalk
      exact (List.mem_filter.mp hxwalk).1
    exact ⟨x, hxall, importable_decodable himp, hrw⟩

/-- Concrete instance of claim C4. -/
theorem c4_witness :
    file_step binFile = (FileStep.skipBinary, true) ∧
    (∃ x, x ∈ allFilesTree [] flatOne ∧ x.2.decodable = true ∧
      mk_row 1 [] (pyFile "a.py") = mk_row 1 x.1 x.2) :=
  ⟨(c4_undecodable_skipped_all_rows_text.1 binFile rfl (by decide) rfl rfl).1,
   c4_undecodable_skipped_all_rows_text.2 (mk_env 1 flatOne [] 10 true) rfl rfl rfl
     (by decide) (mk_row 1 [] (pyFile "a.py")) (by decide)⟩

/-- Claim C3: (soundness) no file beneath a denylisted directory name is
ever visited by the traversal, at any nesting depth; (completeness, the
exact-match side) a file whose directory components avoid the denylist
exactly and carry no `.git` substring is visited, so near-miss names do not
trigger the pruning. -/
theorem c3_denylist_pruning :
    (∀ (t : FsTree) (x : List String × SrcFile), x ∈ walkTree [] t →
      ∀ comp ∈ x.1, comp ∉ skip_dirs) ∧
    (∀ (t : FsTree) (x : List String × SrcFile), x ∈ allFilesTree [] t →
      walkKeep x.1 = true → x ∈ walkTree [] t) := by
  constructor
  · intro t x hx comp hcomp hmem
    rw [walkTree_filter [] rfl t] at hx
    have hkeep := (List.mem_filter.mp hx).2
    unfold walkKeep at hkeep
    simp only [Bool.and_eq_true] at hkeep
    have hall := hkeep.2
    have hcc := List.all_eq_true.mp hall comp hcomp
    have : skip_dirs.contains comp = true := List.elem_eq_true_of_mem hmem
    rw [this] at hcc
    exact absurd hcc (by decide)
  · intro t x hx hkeep
    rw [walkTree_filter [] rfl t]
    exact List.mem_filter.mpr ⟨hx, hkeep⟩

/-- Concrete instance of claim C3. -/
theorem c3_witness :
    (∀ comp ∈ (["src"], pyFile "app.py").1, comp ∉ skip_dirs) ∧
    (["src"], pyFile "app.py") ∈ walkTree [] mixTree :=
  ⟨c3_denylist_pruning.1 mixTree (["src"], pyFile "app.py") (by decide),
   c3_denylist_pruning.2 mixTree (["src"], pyFile "app.py") (by decide) (by decide)⟩

/-- Claim C1 (counterexample): `.github/ci.yml` is a regular file under the
scratch root, its directory is not denylisted, it is small and decodable,
yet the traversal never visits it and the import stages no row for it,
because line 147 tests the substring `.git` against the whole root path and
`.github` contains it. -/
theorem c1_counterexample :
    ((([".github"] : List String).all (fun d => !skip_dirs.contains d)) = true) ∧
    (pyFile "ci.yml").size ≤ 1000000 ∧
    (pyFile "ci.yml").decodable = true ∧
    allFilesTree [] githubTree = [([".github"], pyFile "ci.yml")] ∧
    walkTree [] githubTree = [] ∧
    (clone_repo (mk_env 1 githubTree [] 10 true)).db = [] := by
  decide

/-- Claim C1 (amended): every regular file under the scratch root that is
not inside a pruned directory and whose directory path moreover has no
component containing the substring `.git` is visited exactly once — the
walk equals the `walkKeep` filter of the file enumeration, multiplicity
preserved — and on a run whose commits all succeed the store ends with
exactly one row per importable visited file, in traversal order. -/
theorem c1_amended (t : FsTree) (pid : Nat) (db : List FileRow) (k : Nat)
    (c : Bool) (hk : 1 + n_imp (walkTree [] t) / 50 < k) :
    walkTree [] t = (allFilesTree [] t).filter (fun x => walkKeep x.1) ∧
    (clone_repo (mk_env pid t db k c)).db = imp_rows pid (walkTree [] t) := by
  constructor
  · exact walkTree_filter [] rfl t
  · rw [clone_repo_success pid t db k c hk]

/-- Concrete instance of the amended claim C1. -/
theorem c1_witness :
    walkTree [] flatOne = (allFilesTree [] flatOne).filter (fun x => walkKeep x.1) ∧
    (clone_repo (mk_env 1 flatOne [] 10 true)).db = imp_rows 1 (walkTree [] flatOne) :=
  c1_amended flatOne 1 [] 10 true (by decide)

/-- Claim C2 (counterexample): a run whose delete-existing-rows commit
fails terminates with a persistence error while the freshly cloned scratch
directory is still present — the code returns at line 139 without running
the cleanup of lines 242-247. -/
theorem c2_counterexample :
    (clone_repo (mk_env 1 flatOne [] 0 true)).response.error =
      some "Failed to clear existing files" ∧
    (clone_repo (mk_env 1 flatOne [] 0 true)).scratch = true := by
  decide

/-- Claim C2 (amended): the scratch location is removed before returning
only on the fully successful path (and only when the final removal call
itself succeeds); on the persistence-failure paths after the clone — the
delete-existing commit or the final flush failing — the endpoint returns
with the scratch location still present. -/
theorem c2_amended (env : Env) (h1 : env.projectExists = true)
    (h2 : env.scratchPre = false) (h3 : env.cloneOk = true) :
    (env.commitOk 0 = false → (clone_repo env).scratch = true ∧
      (clone_repo env).response.error = some "Failed to clear existing files") ∧
    (env.commitOk 0 = true →
      env.commitOk (loop_result env).commitIdx = false →
      (clone_repo env).scratch = true ∧
      (clone_repo env).response.error = some "Failed to save files to database") ∧
    (env.commitOk 0 = true →
      env.commitOk (loop_result env).commitIdx = true →
      (clone_repo env).scratch = !env.cleanupOk) := by
  refine ⟨?_, ?_, ?_⟩
  · intro h4
    unfold clone_repo
    rw [if_neg (by simp [h1]), if_neg (by simp [h2]), if_neg (by simp [h3]),
      if_pos h4]
    exact ⟨rfl, rfl⟩
  · intro h4 h5
    unfold clone_repo
    rw [if_neg (by simp [h1]), if_neg (by simp [h2]), if_neg (by simp [h3]),
      if_neg (by simp [h4]), if_pos h5]
    exact ⟨rfl, rfl⟩
  · intro h4 h5
    unfold clone_repo
    rw [if_neg (by simp [h1]), if_neg (by simp [h2]), if_neg (by simp [h3]),
      if_neg (by simp [h4]), if_neg (by simp [h5])]

/-- Concrete instance of the amended claim C2: the final flush fails and
the scratch directory survives the run. -/
theorem c2_witness :
    (clone_repo (mk_env 1 flatOne [] 1 true)).scratch = true ∧
    (clone_repo (mk_env 1 flatOne [] 1 true)).response.error =
      some "Failed to save files to database" :=
  (c2_amended (mk_env 1 flatOne [] 1 true) rfl rfl rfl).2.1 (by decide) (by decide)

/-- Claim C6 (counterexample): when the final flush fails, the returned
error dict carries neither `files_imported` nor `files_skipped` — the
accumulated counts are discarded, not reported. -/
theorem c6_counterexample :
    (clone_repo (mk_env 1 flatOne [] 1 true)).response.error =
      some "Failed to save files to database" ∧
    (clone_repo (mk_env 1 flatOne [] 1 true)).response.files_imported = none ∧
    (clone_repo (mk_env 1 flatOne [] 1 true)).response.files_skipped = none := by
  decide

/-- Claim C6 (amended): if the final flush fails after every earlier commit
succeeded, the endpoint reports the persistence error WITHOUT the
accumulated counts, and the rows of every batch committed before the flush
remain in the store (no global rollback). -/
theorem c6_amended (pid : Nat) (t : FsTree) (db : List FileRow) (c : Bool)
    (k : Nat) (hk : 1 ≤ k) (hkf : k = 1 + n_imp (walkTree [] t) / 50) :
    (clone_repo (mk_env pid t db k c)).response.error =
      some "Failed to save files to database" ∧
    (clone_repo (mk_env pid t db k c)).response.files_imported = none ∧
    (clone_repo (mk_env pid t db k c)).response.files_skipped = none ∧
    (clone_repo (mk_env pid t db k c)).db =
      (imp_rows pid (walkTree [] t)).take (50 * (n_imp (walkTree [] t) / 50)) := by
  have hfail := clone_repo_flushfail pid t db k c hk (by omega)
  rw [hfail]
  refine ⟨rfl, rfl, rfl, ?_⟩
  have : k - 1 = n_imp (walkTree [] t) / 50 := by omega
  rw [this]

/-- Concrete instance of the amended claim C6. -/
theorem c6_witness :
    (clone_repo (mk_env 1 flatOne [] 1 true)).response.error =
      some "Failed to save files to database" ∧
    (clone_repo (mk_env 1 flatOne [] 1 true)).response.files_imported = none ∧
    (clone_repo (mk_env 1 flatOne [] 1 true)).response.files_skipped = none ∧
    (clone_repo (mk_env 1 flatOne [] 1 true)).db =
      (imp_rows 1 (walkTree [] flatOne)).take (50 * (n_imp (walkTree [] flatOne) / 50)) :=
  c6_amended 1 flatOne [] true 1 (by decide) (by decide)

set_option maxRecDepth 100000 in
/-- Claim C7 (counterexample): for N = 50 importable files with batch size
50 and every commit succeeding, persistence receives TWO batch commit calls
— the intermediate one inserting 50 rows and the unconditional final flush
inserting 0 rows — not ceil(50/50) = 1. -/
theorem c7_counterexample :
    n_imp (walkTree [] flat50) = 50 ∧
    (n_imp (walkTree [] flat50) + 49) / 50 = 1 ∧
    (clone_repo (mk_env 1 flat50 [] 100 true)).trace = [50, 0] ∧
    ((clone_repo (mk_env 1 flat50 [] 100 true)).trace).length = 2 := by
  decide

/-- Claim C7 (amended): with N importable files, a fully successful run
issues floor(N/50) intermediate batch commits of exactly 50 records each
plus one unconditional final flush of N mod 50 records (zero when 50
divides N) — floor(N/50) + 1 commit calls, each inserting at most 50
records; and when commit call k (the k-th batch, or the final flush for
k = floor(N/50) + 1) is the first to fail, the rows of batches 1..k-1
remain committed. -/
theorem c7_amended (pid : Nat) (t : FsTree) (db : List FileRow) (c : Bool) :
    (∀ k, 1 + n_imp (walkTree [] t) / 50 < k →
      (clone_repo (mk_env pid t db k c)).trace =
        List.replicate (n_imp (walkTree [] t) / 50) 50 ++
          [n_imp (walkTree [] t) % 50] ∧
      (∀ sz ∈ (clone_repo (mk_env pid t db k c)).trace, sz ≤ 50) ∧
      ((clone_repo (mk_env pid t db k c)).trace).length =
        n_imp (walkTree [] t) / 50 + 1) ∧
    (∀ k, 1 ≤ k → k ≤ 1 + n_imp (walkTree [] t) / 50 →
      (clone_repo (mk_env pid t db k c)).db =
        (imp_rows pid (walkTree [] t)).take (50 * (k - 1))) := by
  constructor
  · intro k hk
    rw [clone_repo_success pid t db k c hk]
    refine ⟨rfl, ?_, ?_⟩
    · intro sz hsz
      rcases List.mem_append.mp hsz with hm | hm
      · rw [List.eq_of_mem_replicate hm]
      · have : sz = n_imp (walkTree [] t) % 50 := by
          simpa using hm
        omega
    · rw [List.length_append, List.length_replicate]
      rfl
  · intro k hk1 hk2
    rw [clone_repo_flushfail pid t db k c hk1 hk2]

/-- Concrete instance of the amended claim C7. -/
theorem c7_witness :
    (clone_repo (mk_env 1 flat50 [] 100 true)).trace =
      List.replicate (n_imp (walkTree [] flat50) / 50) 50 ++
        [n_imp (walkTree [] flat50) % 50] ∧
    (clone_repo (mk_env 1 flat50 [] 2 true)).db =
      (imp_rows 1 (walkTree [] flat50)).take (50 * (2 - 1)) :=
  ⟨((c7_amended 1 flat50 [] true).1 100 (by decide)).1,
   (c7_amended 1 flat50 [] true).2 2 (by decide) (by decide)⟩

/-- Claim C8: re-importing the same tree into the same project is
idempotent.  The second run, starting from the store state the first run
produced, ends with exactly the same row set — one row per importable file
of the tree, in traversal order, with no duplicates and no leftovers —
independent of whatever rows the project held before the first run. -/
theorem c8_idempotent (pid : Nat) (t : FsTree) (db : List FileRow)
    (k₁ k₂ : Nat) (c₁ c₂ : Bool)
    (hk₁ : 1 + n_imp (walkTree [] t) / 50 < k₁)
    (hk₂ : 1 + n_imp (walkTree [] t) / 50 < k₂) :
    (clone_repo (mk_env pid t (clone_repo (mk_env pid t db k₁ c₁)).db k₂ c₂)).db =
      (clone_repo (mk_env pid t db k₁ c₁)).db ∧
    (clone_repo (mk_env pid t db k₁ c₁)).db = imp_rows pid (walkTree [] t) := by
  constructor
  · rw [clone_repo_success pid t _ k₂ c₂ hk₂, clone_repo_success pid t db k₁ c₁ hk₁]
  · rw [clone_repo_success pid t db k₁ c₁ hk₁]

/-- Concrete instance of claim C8, starting from a store holding a stale
row from an earlier import. -/
theorem c8_witness :
    (clone_repo (mk_env 1 flatOne
        (clone_repo (mk_env 1 flatOne staleDb 10 true)).db 10 true)).db =
      (clone_repo (mk_env 1 flatOne staleDb 10 true)).db ∧
    (clone_repo (mk_env 1 flatOne staleDb 10 true)).db =
      imp_rows 1 (walkTree [] flatOne) :=
  c8_idempotent 1 flatOne staleDb 10 10 true true (by decide) (by decide)

set_option maxRecDepth 100000 in
/-- Claim C10 (counterexample): when the intermediate commit at the 50th
file fails while every other commit succeeds, the run still returns
successfully and reports 50 imported AND 1 skipped for a traversal that
yielded exactly 50 files — the 50th file incremented both counters, because
the batch commit sits inside the per-file try whose generic handler counts
a skip and continues. -/
theorem c10_counterexample :
    (walkTree [] flat50).length = 50 ∧
    (clone_repo env_c10).response.message = some "Successfully cloned" ∧
    (clone_repo env_c10).response.files_imported = some 50 ∧
    (clone_repo env_c10).response.files_skipped = some 1 := by
  decide

/-- Claim C10 (amended): in a run where every commit succeeds, each file the
traversal yields increments exactly one of the two counters, so the
reported imported count equals the number of importable files, which equals
the number of rows finally stored, and imported plus skipped equals the
number of files examined.  A failing intermediate batch commit additionally
increments the skipped counter at that batch boundary. -/
theorem c10_amended (pid : Nat) (t : FsTree) (db : List FileRow) (c : Bool)
    (k : Nat) (hk : 1 + n_imp (walkTree [] t) / 50 < k) :
    (clone_repo (mk_env pid t db k c)).response.files_imported =
      some (n_imp (walkTree [] t)) ∧
    (clone_repo (mk_env pid t db k c)).response.files_skipped =
      some (n_skip (walkTree [] t)) ∧
    n_imp (walkTree [] t) + n_skip (walkTree [] t) = (walkTree [] t).length ∧
    ((clone_repo (mk_env pid t db k c)).db).length = n_imp (walkTree [] t) := by
  rw [clone_repo_success pid t db k c hk]
  exact ⟨rfl, rfl, n_imp_add_n_skip _, length_imp_rows pid _⟩

/-- Concrete instance of the amended claim C10. -/
theorem c10_witness :
    (clone_repo (mk_env 1 flatOne [] 10 true)).response.files_imported =
      some (n_imp (walkTree [] flatOne)) ∧
    (clone_repo (mk_env 1 flatOne [] 10 true)).response.files_skipped =
      some (n_skip (walkTree [] flatOne)) ∧
    n_imp (walkTree [] flatOne) + n_skip (walkTree [] flatOne) =
      (walkTree [] flatOne).length ∧
    ((clone_repo (mk_env 1 flatOne [] 10 true)).db).length =
      n_imp (walkTree [] flatOne) :=
  c10_amended 1 flatOne [] true 10 (by decide)

end CoFrame
